/-
Verification of the core tabular store (crates/core) of the repository:
typed values, column schemas, tables with validated CRUD and intersection,
and snapshot persistence.

Modelling conventions (shallow embedding of the Rust source):
* `f32` / `f64` values are modelled as exact rationals (`ℚ`).  Every claim
  below only exercises finite floating values whose arithmetic is exact at
  the scales involved, and for finite floats equality of IEEE bit patterns
  coincides with equality of the represented real value, so `to_bits`
  hashing is modelled as exact `ℚ` equality.
* `u32` ids and counters are modelled as `Nat` (no claim exercises
  wrap-around), `i32` as `Int`.
* `HashMap<u32, Row>` is modelled as an association list with
  insert-replaces semantics (`rowsInsert` erases the old binding and
  appends).  `HashMap` equality in Rust is key/value-set equality; the
  claims below only compare maps produced by identical operation
  sequences, for which the list model agrees.
* `HashSet<Vec<DbValue>>` lookup in Rust finds a stored element iff some
  stored element has the same hash as the probe AND compares equal to it
  (`Hash` is by exact bit pattern, `PartialEq` is tolerance based for the
  floating kinds).  `hsContains` models exactly that conjunction.
* A Rust panic (the `unwrap` in `get_row_mut`) is modelled as a dedicated
  `UpdateResult.panicked` outcome, distinct from a returned error.
-/
import Mathlib

set_option maxHeartbeats 1000000

/-- Db value kinds, from `DbColumnType` in schema.rs. -/
inductive DbColumnType where
  | Integer
  | Real
  | Char
  | String
  | Money
  | MoneyRange
deriving DecidableEq, Repr

/-- Db values, from `DbValue` in schema.rs; floats modelled as `ℚ`. -/
inductive DbValue where
  | Integer : Int → DbValue
  | Real : ℚ → DbValue
  | Char : Char → DbValue
  | String : String → DbValue
  | Money : ℚ → DbValue
  | MoneyRange : ℚ → ℚ → DbValue
deriving DecidableEq, Repr

/-- The `value_type` method of `DbValue`. -/
def DbValue.value_type : DbValue → DbColumnType
  | .Integer _ => .Integer
  | .Real _ => .Real
  | .Char _ => .Char
  | .String _ => .String
  | .Money _ => .Money
  | .MoneyRange _ _ => .MoneyRange

/-- The `PartialEq` impl for `DbValue`: exact for Integer/Char/String,
tolerance `1e-6` for Real, `1e-10` for Money and each MoneyRange part. -/
def dbEq : DbValue → DbValue → Bool
  | .Integer a, .Integer b => a == b
  | .Real a, .Real b => decide (|a - b| < 1 / 1000000)
  | .Char a, .Char b => a == b
  | .String a, .String b => a == b
  | .Money a, .Money b => decide (|a - b| < 1 / 10000000000)
  | .MoneyRange a1 a2, .MoneyRange b1 b2 =>
      decide (|a1 - b1| < 1 / 10000000000) && decide (|a2 - b2| < 1 / 10000000000)
  | _, _ => false

/-- Equality of the `Hash` impl fingerprints of two `DbValue`s: the Rust
code hashes Integer/Char/String by value and every floating kind by its
exact bit pattern (`to_bits`), so two values hash alike iff they are
structurally identical (bit-pattern equality is exact-value equality for
the finite floats modelled here). -/
def dbHashEq : DbValue → DbValue → Bool
  | .Integer a, .Integer b => a == b
  | .Real a, .Real b => a == b
  | .Char a, .Char b => a == b
  | .String a, .String b => a == b
  | .Money a, .Money b => a == b
  | .MoneyRange a1 a2, .MoneyRange b1 b2 => a1 == b1 && a2 == b2
  | _, _ => false

/-- The `PartialEq` impl for `Vec<DbValue>`: same length, pointwise `dbEq`. -/
def listDbEq : List DbValue → List DbValue → Bool
  | [], [] => true
  | a :: as_, b :: bs => dbEq a b && listDbEq as_ bs
  | _, _ => false

/-- Hash-fingerprint equality for `Vec<DbValue>`: same length, pointwise. -/
def listHashEq : List DbValue → List DbValue → Bool
  | [], [] => true
  | a :: as_, b :: bs => dbHashEq a b && listHashEq as_ bs
  | _, _ => false

/-- A stored value-sequence is found by a `HashSet` probe iff its hash
fingerprint matches the probe's and it compares equal to the probe. -/
def hsContains (stored : List (List DbValue)) (probe : List DbValue) : Bool :=
  stored.any fun vs => listHashEq vs probe && listDbEq vs probe

/-- A column declaration, from `DbColumn` in schema.rs. -/
structure DbColumn where
  name : String
  column_type : DbColumnType
deriving DecidableEq, Repr

/-- A schema, from `DbSchema` in schema.rs: note it carries its own `name`
field in addition to the column list, and the derived `PartialEq`
compares both. -/
structure DbSchema where
  name : String
  columns : List DbColumn
deriving DecidableEq, Repr

/-- A row, from `Row` in table.rs. -/
structure Row where
  id : Nat
  values : List DbValue
deriving DecidableEq, Repr

/-- A table, from `Table` in table.rs; `rows` is the id → Row map and
`index` the next id to allocate. -/
structure Table where
  schema : DbSchema
  rows : List (Nat × Row)
  index : Nat
  name : String
deriving DecidableEq, Repr

/-- Association-list lookup, modelling `HashMap::get`. -/
def rowsLookup : List (Nat × Row) → Nat → Option Row
  | [], _ => none
  | p :: ps, k => if p.1 = k then some p.2 else rowsLookup ps k

/-- Removal of a key, modelling `HashMap::remove`'s effect on the map. -/
def rowsErase : List (Nat × Row) → Nat → List (Nat × Row)
  | [], _ => []
  | p :: ps, k => if p.1 = k then rowsErase ps k else p :: rowsErase ps k

/-- Insertion, modelling `HashMap::insert`: replaces any old binding. -/
def rowsInsert (m : List (Nat × Row)) (k : Nat) (r : Row) : List (Nat × Row) :=
  rowsErase m k ++ [(k, r)]

/-- Error values produced by the table operations (the distinct `bail!` /
`anyhow!` messages in table.rs). -/
inductive TableErr where
  | lengthMismatch
  | typeMismatch
  | notFound
  | schemaMismatch
deriving DecidableEq, Repr

/-- The `Table::new` constructor. -/
def Table.new (name : String) (schema : DbSchema) : Table :=
  { schema := schema, rows := [], index := 0, name := name }

/-- The per-position type check of `Table::validate`: the Rust `for` loop
over `row.iter().enumerate()`, bailing at the first kind mismatch. -/
def checkTypes : List DbValue → List DbColumn → Except TableErr Unit
  | v :: vs, c :: cs =>
      if v.value_type ≠ c.column_type then .error .typeMismatch
      else checkTypes vs cs
  | _, _ => .ok ()

/-- The `Table::validate` method: arity check first, then per-position
kind check in order. -/
def Table.validate (t : Table) (row : List DbValue) : Except TableErr Unit :=
  if row.length ≠ t.schema.columns.length then .error .lengthMismatch
  else checkTypes row t.schema.columns

/-- The `Table::insert` method: validates, stores the row under the
current counter value, bumps the counter, returns the id.  The returned
table is the state of `&mut self` after the call. -/
def Table.insert (t : Table) (row : List DbValue) : Table × Except TableErr Nat :=
  match t.validate row with
  | .error e => (t, .error e)
  | .ok _ =>
      let id := t.index
      ({ t with rows := rowsInsert t.rows id { id := id, values := row },
                index := t.index + 1 },
       .ok id)

/-- The `Table::delete` method: removes the row, error if absent. -/
def Table.delete (t : Table) (id : Nat) : Table × Except TableErr Unit :=
  match rowsLookup t.rows id with
  | none => (t, .error .notFound)
  | some _ => ({ t with rows := rowsErase t.rows id }, .ok ())

/-- Possible outcomes of `Table::update`: success, a returned error, or a
Rust panic (the `unwrap` inside `get_row_mut` on a missing id). -/
inductive UpdateResult where
  | ok
  | error (e : TableErr)
  | panicked
deriving DecidableEq, Repr

/-- The `Table::update` method: validates FIRST; then `get_row_mut`, which
panics (unwrap on `None`) when the id is absent; otherwise replaces the
row's value list, keeping the row's own `id` field. -/
def Table.update (t : Table) (id : Nat) (newRow : List DbValue) :
    Table × UpdateResult :=
  match t.validate newRow with
  | .error e => (t, .error e)
  | .ok _ =>
      match rowsLookup t.rows id with
      | none => (t, .panicked)
      | some r =>
          ({ t with rows := rowsInsert t.rows id { id := r.id, values := newRow } },
           .ok)

/-- The `Table::get_row` method. -/
def Table.get_row (t : Table) (id : Nat) : Except TableErr Row :=
  match rowsLookup t.rows id with
  | none => .error .notFound
  | some r => .ok r

/-- The `Table::intersection` method: requires full structural schema
equality, builds the set of self's value-sequences, and keeps each row of
`other` whose value-sequence is found in the set (hash match AND
tolerance equality, see `hsContains`).  Keeping duplicates in the
modelled set does not change `hsContains`. -/
def Table.intersection (t other : Table) : Except TableErr (List Row) :=
  if t.schema ≠ other.schema then .error .schemaMismatch
  else
    let uniq := t.rows.map fun p => p.2.values
    .ok ((other.rows.map Prod.snd).filter fun r => hsContains uniq r.values)

/-- A database, from `Database` in database.rs. -/
structure Database where
  name : String
  tables : List Table
deriving DecidableEq, Repr

/-- Mutating operations on a table, for reasoning about operation
sequences (claim about id allocation across a table's lifetime). -/
inductive Op where
  | ins (v : List DbValue)
  | del (id : Nat)
  | upd (id : Nat) (v : List DbValue)

/-- The ids returned by the successful inserts while applying a sequence
of operations left to right; a panicking update aborts the run. -/
def runIds : Table → List Op → List Nat
  | _, [] => []
  | t, .ins v :: ops =>
      match t.insert v with
      | (t', .ok id) => id :: runIds t' ops
      | (t', .error _) => runIds t' ops
  | t, .del i :: ops => runIds (t.delete i).1 ops
  | t, .upd i v :: ops =>
      match t.update i v with
      | (t', .ok) => runIds t' ops
      | (t', .error _) => runIds t' ops
      | (_, .panicked) => []

theorem rowsLookup_rowsErase_self (m : List (Nat × Row)) (k : Nat) :
    rowsLookup (rowsErase m k) k = none := by
  induction m with
  | nil => rfl
  | cons p ps ih =>
      by_cases h : p.1 = k
      · simpa [rowsErase, h] using ih
      · simpa [rowsErase, rowsLookup, h] using ih

theorem rowsLookup_append (m₁ m₂ : List (Nat × Row)) (k : Nat) :
    rowsLookup (m₁ ++ m₂) k =
      ((rowsLookup m₁ k).rec (rowsLookup m₂ k) fun r => some r) := by
  induction m₁ with
  | nil => rfl
  | cons p ps ih =>
      by_cases h : p.1 = k
      · simp [rowsLookup, h]
      · simpa [rowsLookup, h] using ih

theorem rowsLookup_rowsInsert_self (m : List (Nat × Row)) (k : Nat) (r : Row) :
    rowsLookup (rowsInsert m k r) k = some r := by
  simp [rowsInsert, rowsLookup_append, rowsLookup_rowsErase_self, rowsLookup]

theorem mem_rowsErase {p : Nat × Row} {m : List (Nat × Row)} {k : Nat}
    (h : p ∈ rowsErase m k) : p ∈ m := by
  induction m with
  | nil => simp [rowsErase] at h
  | cons q qs ih =>
      by_cases hq : q.1 = k
      · simp only [rowsErase, if_pos hq] at h
        exact List.mem_cons_of_mem _ (ih h)
      · simp only [rowsErase, if_neg hq, List.mem_cons] at h
        rcases h with h | h
        · exact h ▸ List.mem_cons_self _ _
        · exact List.mem_cons_of_mem _ (ih h)

theorem rowsLookup_mem {m : List (Nat × Row)} {k : Nat} {r : Row}
    (h : rowsLookup m k = some r) : (k, r) ∈ m := by
  induction m with
  | nil => simp [rowsLookup] at h
  | cons q qs ih =>
      by_cases hq : q.1 = k
      · simp only [rowsLookup, if_pos hq, Option.some.injEq] at h
        subst h
        rw [← hq]
        exact List.mem_cons_self _ _
      · simp only [rowsLookup, if_neg hq] at h
        exact List.mem_cons_of_mem _ (ih h)

/-- Pointwise kind agreement between a value list and a column list. -/
def kindsOk (vs : List DbValue) (cs : List DbColumn) : Prop :=
  List.Forall₂ (fun v c => v.value_type = c.column_type) vs cs

theorem checkTypes_ok_of_kindsOk {vs : List DbValue} {cs : List DbColumn}
    (h : kindsOk vs cs) : checkTypes vs cs = .ok () := by
  induction h with
  | nil => rfl
  | cons hvc _ ih => simp [checkTypes, hvc, ih]

theorem checkTypes_ok_or_typeMismatch (vs : List DbValue) (cs : List DbColumn) :
    checkTypes vs cs = .ok () ∨ checkTypes vs cs = .error .typeMismatch := by
  induction vs generalizing cs with
  | nil => cases cs <;> simp [checkTypes]
  | cons v vs ih =>
      cases cs with
      | nil => simp [checkTypes]
      | cons c cs =>
          by_cases h : v.value_type = c.column_type
          · simpa [checkTypes, h] using ih cs
          · simp [checkTypes, h]

theorem kindsOk_of_checkTypes_ok {vs : List DbValue} {cs : List DbColumn}
    (hlen : vs.length = cs.length) (h : checkTypes vs cs = .ok ()) :
    kindsOk vs cs := by
  induction vs generalizing cs with
  | nil =>
      cases cs with
      | nil => exact List.Forall₂.nil
      | cons c cs => simp at hlen
  | cons v vs ih =>
      cases cs with
      | nil => simp at hlen
      | cons c cs =>
          by_cases hvc : v.value_type = c.column_type
          · simp only [checkTypes, hvc, ne_eq, not_true_eq_false, if_false] at h
            exact List.Forall₂.cons hvc (ih (by simpa using hlen) h)
          · simp [checkTypes, hvc] at h

theorem validate_ok_iff {t : Table} {v : List DbValue}
    (hlen : v.length = t.schema.columns.length) :
    t.validate v = .ok () ↔ kindsOk v t.schema.columns := by
  constructor
  · intro h
    simp only [Table.validate, hlen, ne_eq, not_true_eq_false, if_false] at h
    exact kindsOk_of_checkTypes_ok hlen h
  · intro h
    simp [Table.validate, hlen, checkTypes_ok_of_kindsOk h]

theorem kindsOk_iff_get {vs : List DbValue} {cs : List DbColumn}
    (hlen : vs.length = cs.length) :
    kindsOk vs cs ↔
      ∀ i : Fin vs.length,
        (vs.get i).value_type = (cs.get (Fin.cast hlen i)).column_type := by
  rw [kindsOk, List.forall₂_iff_get]
  constructor
  · intro h i
    exact h.2 i.1 i.2 (hlen ▸ i.2)
  · intro h
    exact ⟨hlen, fun i h₁ h₂ => h ⟨i, h₁⟩⟩

theorem delete_fst_index (t : Table) (i : Nat) : (t.delete i).1.index = t.index := by
  unfold Table.delete
  cases rowsLookup t.rows i <;> rfl

theorem runIds_range (ops : List Op) :
    ∀ t : Table, ∃ k, runIds t ops = List.range' t.index k := by
  induction ops with
  | nil => exact fun t => ⟨0, rfl⟩
  | cons op ops ih =>
      intro t
      cases op with
      | ins v =>
          rcases hv : t.validate v with e | u
          · obtain ⟨k, hk⟩ := ih t
            exact ⟨k, by simpa [runIds, Table.insert, hv] using hk⟩
          · obtain ⟨k, hk⟩ := ih
              { t with rows := rowsInsert t.rows t.index { id := t.index, values := v },
                       index := t.index + 1 }
            refine ⟨k + 1, ?_⟩
            simp only [runIds, Table.insert, hv]
            rw [List.range'_succ]
            simpa using hk
      | del i =>
          obtain ⟨k, hk⟩ := ih (t.delete i).1
          exact ⟨k, by simpa [runIds, delete_fst_index] using hk⟩
      | upd i v =>
          rcases hv : t.validate v with e | u
          · obtain ⟨k, hk⟩ := ih t
            exact ⟨k, by simpa [runIds, Table.update, hv] using hk⟩
          · rcases hl : rowsLookup t.rows i with _ | r
            · exact ⟨0, by simp [runIds, Table.update, hv, hl, List.range']⟩
            · obtain ⟨k, hk⟩ := ih
                { t with rows := rowsInsert t.rows i { id := r.id, values := v } }
              exact ⟨k, by simpa [runIds, Table.update, hv, hl] using hk⟩

/-- A concrete one-integer-column schema and tables built from it, used as
inputs for witnesses and counterexamples below. -/
def wSchema : DbSchema :=
  { name := "s", columns := [{ name := "c", column_type := DbColumnType.Integer }] }

def wTable : Table := Table.new "t" wSchema

def wTable2 : Table := (wTable.insert [DbValue.Integer 1]).1

/-- C1: for every table whose schema has the same arity as the value
sequence `v` and matching per-position kinds, `insert v` succeeds
returning an id, and `get_row` at that id returns the row `{id, v}`. -/
theorem insert_then_get_row (t : Table) (v : List DbValue)
    (hlen : v.length = t.schema.columns.length)
    (hkind : ∀ i : Fin v.length,
      (v.get i).value_type = (t.schema.columns.get (Fin.cast hlen i)).column_type) :
    ∃ id, (t.insert v).2 = Except.ok id ∧
      (t.insert v).1.get_row id = Except.ok { id := id, values := v } := by
  have hv : t.validate v = .ok () :=
    (validate_ok_iff hlen).2 ((kindsOk_iff_get hlen).2 hkind)
  refine ⟨t.index, ?_, ?_⟩ <;>
    simp [Table.insert, hv, Table.get_row, rowsLookup_rowsInsert_self]

/-- Witness for C1 at a concrete table and value sequence. -/
theorem insert_then_get_row_witness :
    ∃ id, (wTable.insert [DbValue.Integer 42]).2 = Except.ok id ∧
      (wTable.insert [DbValue.Integer 42]).1.get_row id
        = Except.ok { id := id, values := [DbValue.Integer 42] } :=
  insert_then_get_row wTable [DbValue.Integer 42] rfl (by decide)

/-- C2: along any sequence of operations on a fresh table, the ids handed
out by the successful inserts form the list `[0, 1, ..., k-1]`: they are
strictly increasing starting at 0, and an id is never handed out again
after the row holding it is deleted (the counter only increases). -/
theorem insert_ids_initial_segment (nm : String) (sc : DbSchema) (ops : List Op) :
    ∃ k, runIds (Table.new nm sc) ops = List.range k := by
  obtain ⟨k, hk⟩ := runIds_range ops (Table.new nm sc)
  exact ⟨k, by simpa [List.range_eq_range', Table.new] using hk⟩

/-- C3: evaluation of `update` on a missing id.  The code validates the
new values FIRST; on a missing id it then panics (the `unwrap` inside
`get_row_mut`) when the values are valid, and returns a schema error (not
NotFound) when they are invalid — it never returns NotFound. -/
theorem update_missing_id_panics :
    (wTable.update 0 [DbValue.Integer 1]).2 = UpdateResult.panicked ∧
    (wTable.update 0 [DbValue.String "x"]).2
      = UpdateResult.error TableErr.typeMismatch := by
  exact ⟨rfl, rfl⟩

/-- C7: when validation fails, `insert` and `update` (here on a table
that does contain the addressed id) surface the schema error and leave
the table — rows, counter, schema and name — completely unchanged. -/
theorem validation_failure_leaves_table_unchanged (t : Table) (id : Nat)
    (v : List DbValue) (e : TableErr) (r : Row)
    (_hid : rowsLookup t.rows id = some r)
    (h : t.validate v = .error e) :
    t.insert v = (t, Except.error e) ∧ t.update id v = (t, UpdateResult.error e) := by
  constructor <;> simp [Table.insert, Table.update, h]

/-- Witness for C7 at a concrete table, id and invalid value sequence. -/
theorem validation_failure_leaves_table_unchanged_witness :
    wTable2.insert [] = (wTable2, Except.error TableErr.lengthMismatch) ∧
      wTable2.update 0 [] = (wTable2, UpdateResult.error TableErr.lengthMismatch) :=
  validation_failure_leaves_table_unchanged wTable2 0 [] TableErr.lengthMismatch
    { id := 0, values := [DbValue.Integer 1] } (by decide) rfl

/-- C8: `validate` checks arity first — a wrong-length value sequence
yields the arity error whatever the kinds are; when the arity matches it
succeeds iff every position's kind matches, and any kind mismatch yields
the (single, first-condition) type error. -/
theorem validate_checks_arity_then_kinds (t : Table) (v : List DbValue) :
    (v.length ≠ t.schema.columns.length →
      t.validate v = .error .lengthMismatch) ∧
    (∀ hlen : v.length = t.schema.columns.length,
      (t.validate v = .ok () ↔
        ∀ i : Fin v.length,
          (v.get i).value_type
            = (t.schema.columns.get (Fin.cast hlen i)).column_type) ∧
      (¬ (∀ i : Fin v.length,
          (v.get i).value_type
            = (t.schema.columns.get (Fin.cast hlen i)).column_type) →
        t.validate v = .error .typeMismatch)) := by
  refine ⟨fun h => by simp [Table.validate, h], fun hlen => ⟨?_, ?_⟩⟩
  · rw [validate_ok_iff hlen, kindsOk_iff_get hlen]
  · intro hmm
    rcases checkTypes_ok_or_typeMismatch v t.schema.columns with h | h
    · exact absurd ((kindsOk_iff_get hlen).1 (kindsOk_of_checkTypes_ok hlen h)) hmm
    · simp [Table.validate, hlen, h]

/-- Witness for C8: both failure modes and the success case, concretely. -/
theorem validate_checks_arity_then_kinds_witness :
    wTable.validate [] = .error .lengthMismatch ∧
      wTable.validate [DbValue.String "x"] = .error .typeMismatch ∧
      wTable.validate [DbValue.Integer 7] = .ok () := by
  refine ⟨(validate_checks_arity_then_kinds wTable []).1 (by decide),
    ((validate_checks_arity_then_kinds wTable [DbValue.String "x"]).2 rfl).2
      (by decide),
    ((validate_checks_arity_then_kinds wTable [DbValue.Integer 7]).2 rfl).1.2
      (by decide)⟩

/-- The representation invariant of a table: every map entry's row carries
the entry's key as its own id, and every key is below the counter. -/
def tableInv (t : Table) : Prop :=
  ∀ p ∈ t.rows, p.2.id = p.1 ∧ p.1 < t.index

instance (t : Table) : Decidable (tableInv t) := by
  unfold tableInv
  infer_instance

/-- C9: the invariant holds for a fresh table and is preserved by
`insert`, `update` and `delete`, whether they succeed or fail. -/
theorem table_invariant_preserved (nm : String) (sc : DbSchema) (t : Table)
    (id : Nat) (v : List DbValue) (h : tableInv t) :
    tableInv (Table.new nm sc) ∧ tableInv (t.insert v).1 ∧
      tableInv (t.update id v).1 ∧ tableInv (t.delete id).1 := by
  refine ⟨?_, ?_, ?_, ?_⟩
  · intro p hp
    simp [Table.new] at hp
  · rcases hv : t.validate v with e | u
    · simpa [Table.insert, hv] using h
    · simp only [tableInv, Table.insert, hv, rowsInsert]
      intro p hp
      rcases List.mem_append.1 hp with hmem | hnew
      · have hp' := h p (mem_rowsErase hmem)
        exact ⟨hp'.1, Nat.lt_succ_of_lt hp'.2⟩
      · simp only [List.mem_singleton] at hnew
        subst hnew
        exact ⟨rfl, Nat.lt_succ_self _⟩
  · rcases hv : t.validate v with e | u
    · simpa [Table.update, hv] using h
    · rcases hl : rowsLookup t.rows id with _ | r
      · simpa [Table.update, hv, hl] using h
      · simp only [tableInv, Table.update, hv, hl, rowsInsert]
        intro p hp
        rcases List.mem_append.1 hp with hmem | hnew
        · exact h p (mem_rowsErase hmem)
        · simp only [List.mem_singleton] at hnew
          subst hnew
          have hr := h (id, r) (rowsLookup_mem hl)
          exact ⟨hr.1, hr.2⟩
  · rcases hl : rowsLookup t.rows id with _ | r
    · simpa [Table.delete, hl] using h
    · simp only [tableInv, Table.delete, hl]
      intro p hp
      exact h p (mem_rowsErase hp)

/-- Witness for C9 at a concrete table holding one row. -/
theorem table_invariant_preserved_witness :
    tableInv (Table.new "n" wSchema) ∧ tableInv (wTable2.insert [DbValue.Integer 2]).1 ∧
      tableInv (wTable2.update 0 [DbValue.Integer 2]).1 ∧
      tableInv (wTable2.delete 0).1 :=
  table_invariant_preserved "n" wSchema wTable2 0 [DbValue.Integer 2] (by decide)

/-- C10: the tolerance-based equality on `Real` values is not transitive:
0 equals 6e-7 and 6e-7 equals 1.2e-6 (both within 1e-6), but 0 does not
equal 1.2e-6; so `dbEq` is not an equivalence relation. -/
theorem dbEq_not_transitive :
    dbEq (DbValue.Real 0) (DbValue.Real (6 / 10000000)) = true ∧
    dbEq (DbValue.Real (6 / 10000000)) (DbValue.Real (12 / 10000000)) = true ∧
    dbEq (DbValue.Real 0) (DbValue.Real (12 / 10000000)) = false := by
  refine ⟨?_, ?_, ?_⟩ <;> simp only [dbEq, decide_eq_true_eq, decide_eq_false_iff_not] <;>
    rw [abs_lt] <;> norm_num

/-- C5 (amended): `intersection` fails with the schema-mismatch error
exactly when the two FULL schemas differ — and the derived structural
equality on `DbSchema` compares the schema's own `name` field in
addition to the ordered column list. -/
theorem intersection_schemaMismatch_iff (t other : Table) :
    t.intersection other = Except.error TableErr.schemaMismatch ↔
      t.schema ≠ other.schema := by
  by_cases h : t.schema = other.schema <;> simp [Table.intersection, h]

/-- Counterexample to C5 as stated: two schemas with identical ordered
column sequences (names and kinds) but different schema names make
`intersection` fail, contradicting the claim that identical column
sequences never yield SchemaMismatch. -/
theorem intersection_fails_on_equal_columns :
    ({ name := "a", columns := [{ name := "c", column_type := DbColumnType.Integer }] }
        : DbSchema).columns
      = ({ name := "b", columns := [{ name := "c", column_type := DbColumnType.Integer }] }
        : DbSchema).columns ∧
    (Table.new "t1"
        { name := "a", columns := [{ name := "c", column_type := DbColumnType.Integer }] }).intersection
      (Table.new "t2"
        { name := "b", columns := [{ name := "c", column_type := DbColumnType.Integer }] })
      = Except.error TableErr.schemaMismatch := by
  refine ⟨rfl, ?_⟩
  have h : (Table.new "t1"
        ({ name := "a", columns := [{ name := "c", column_type := DbColumnType.Integer }] }
          : DbSchema)).schema
      ≠ (Table.new "t2"
        ({ name := "b", columns := [{ name := "c", column_type := DbColumnType.Integer }] }
          : DbSchema)).schema := by
    decide
  simp [Table.intersection, h]

/-- C4 (amended): with equal schemas, a row of `other` belongs to the
intersection iff some row of `self` has a value-sequence that is BOTH
hash-fingerprint-equal (exact bit patterns) and tolerance-equal to it.
Because the set probe first matches on the exact-bit-pattern hash,
tolerance equality alone does not make a row a member. -/
theorem intersection_membership (t other : Table)
    (h : t.schema = other.schema) (r : Row) :
    (∃ rows, t.intersection other = Except.ok rows ∧ r ∈ rows) ↔
      ((∃ p ∈ other.rows, p.2 = r) ∧
        ∃ q ∈ t.rows, listHashEq q.2.values r.values = true ∧
          listDbEq q.2.values r.values = true) := by
  simp only [Table.intersection, h, ne_eq, not_true_eq_false, if_false,
    Except.ok.injEq, exists_eq_left', List.mem_filter, List.mem_map,
    hsContains, List.any_eq_true, Bool.and_eq_true]
  constructor
  · rintro ⟨⟨p, hp, hpr⟩, vs, ⟨q, hq, hqvs⟩, hh, he⟩
    exact ⟨⟨p, hp, hpr⟩, q, hq, by simpa [hqvs] using hh, by simpa [hqvs] using he⟩
  · rintro ⟨⟨p, hp, hpr⟩, q, hq, hh, he⟩
    exact ⟨⟨p, hp, hpr⟩, q.2.values, ⟨q, hq, rfl⟩, hh, he⟩

def iTableA : Table := ((Table.new "a" wSchema).insert [DbValue.Integer 5]).1

def iTableB : Table := ((Table.new "b" wSchema).insert [DbValue.Integer 5]).1

/-- Witness for C4's amended membership characterization: a row whose
value-sequence occurs bit-identically in both tables is a member. -/
theorem intersection_membership_witness :
    ∃ rows, iTableA.intersection iTableB = Except.ok rows ∧
      { id := 0, values := [DbValue.Integer 5] } ∈ rows :=
  (intersection_membership iTableA iTableB rfl
    { id := 0, values := [DbValue.Integer 5] }).2 (by decide)

/-- A one-Money-column schema and a pair of tables holding the claim's
tolerance-equal but bit-distinct Money values. -/
def mSchema : DbSchema :=
  { name := "m", columns := [{ name := "amount", column_type := DbColumnType.Money }] }

def mSelf : Table := ((Table.new "self" mSchema).insert [DbValue.Money 1000]).1

def mOther : Table :=
  ((Table.new "other" mSchema).insert [DbValue.Money (1000 + 1 / 1000000000000)]).1

/-- Counterexample to C4 as stated: `Money(1000)` and `Money(1000 + 1e-12)`
are tolerance-equal under the code's `PartialEq`, yet the intersection of
a table holding the former with a table holding the latter is EMPTY — the
set lookup hashes exact bit patterns, so `other`'s row is not found. -/
theorem intersection_tolerance_counterexample :
    dbEq (DbValue.Money 1000) (DbValue.Money (1000 + 1 / 1000000000000)) = true ∧
      mSelf.intersection mOther = Except.ok [] := by
  constructor
  · simp only [dbEq, decide_eq_true_eq]
    rw [abs_lt]
    constructor <;> norm_num
  · have hne : ¬ ((1000 : ℚ) == 1000 + 1 / 1000000000000) = true := by
      simp only [beq_iff_eq]
      norm_num
    have hself : mSelf.rows = [(0, { id := 0, values := [DbValue.Money 1000] })] := rfl
    have hother : mOther.rows
        = [(0, { id := 0, values := [DbValue.Money (1000 + 1 / 1000000000000)] })] := rfl
    have hsch : mSelf.schema = mOther.schema := rfl
    simp [Table.intersection, hsch, hself, hother, hsContains, listHashEq,
      dbHashEq, hne]

/-- A JSON document.  Numbers carry exact rationals, matching the `ℚ`
value model above. -/
inductive Json where
  | num : ℚ → Json
  | str : String → Json
  | arr : List Json → Json
  | obj : List (String × Json) → Json

/-- Decimal digit to its ASCII character (code point 48 is the zero). -/
def digitChar (d : Nat) : Char := Char.ofNat (48 + d)

/-- ASCII character back to its decimal digit, when it is one. -/
def charDigit (c : Char) : Option Nat :=
  if 48 ≤ c.toNat ∧ c.toNat ≤ 57 then some (c.toNat - 48) else none

def charsToDigits : List Char → Option (List Nat)
  | [] => some []
  | c :: cs =>
      match charDigit c, charsToDigits cs with
      | some d, some ds => some (d :: ds)
      | _, _ => none

/-- The decimal rendering of a row id used as a JSON object key. -/
def natToKey (n : Nat) : String :=
  if n = 0 then "0"
  else String.mk (((Nat.digits 10 n).map digitChar).reverse)

/-- Reading a row id back from a JSON object key. -/
def keyToNat (s : String) : Option Nat :=
  if s.data = [] then none
  else
    match charsToDigits s.data with
    | some ds => some (Nat.ofDigits 10 ds.reverse)
    | none => none

theorem charDigit_digitChar {d : Nat} (h : d < 10) :
    charDigit (digitChar d) = some d := by
  interval_cases d <;> rfl

theorem charsToDigits_map {l : List Nat} (h : ∀ d ∈ l, d < 10) :
    charsToDigits (l.map digitChar) = some l := by
  induction l with
  | nil => rfl
  | cons d ds ih =>
      simp only [List.map_cons, charsToDigits,
        charDigit_digitChar (h d (List.mem_cons_self d ds)),
        ih fun x hx => h x (List.mem_cons_of_mem d hx)]

theorem keyToNat_natToKey (n : Nat) : keyToNat (natToKey n) = some n := by
  by_cases h0 : n = 0
  · subst h0
    rfl
  · have hdig : ∀ d ∈ (Nat.digits 10 n).reverse, d < 10 := fun d hd =>
      Nat.digits_lt_base (by norm_num) (List.mem_reverse.1 hd)
    have hne : (((Nat.digits 10 n).map digitChar).reverse) ≠ [] := by
      simp [Nat.digits_ne_nil_iff_ne_zero.2 h0]
    rw [natToKey, if_neg h0, keyToNat]
    rw [if_neg (by simpa using hne)]
    rw [show (String.mk (((Nat.digits 10 n).map digitChar).reverse)).data
          = ((Nat.digits 10 n).reverse.map digitChar) by simp]
    rw [charsToDigits_map hdig]
    simp [Nat.ofDigits_digits]

/-- Encoding of a `Nat` field (`u32` in the source) as a JSON number. -/
def encodeNat (n : Nat) : Json := .num (n : ℚ)

def decodeNat : Json → Option Nat
  | .num q => if q.den = 1 ∧ 0 ≤ q.num then some q.num.toNat else none
  | _ => none

/-- Modelled from the spec: the snapshot serialization of a `DbValue`
(serde_json, which is library code outside src/) — a single-key object
tagged by the variant name, e.g. `{"Integer": 42}`, `{"Money": 42.0}`,
`{"MoneyRange": [0.0, 100.0]}` (spec section 6 and the serde tests in
schema.rs). -/
def encodeDbValue : DbValue → Json
  | .Integer i => .obj [("Integer", .num (i : ℚ))]
  | .Real r => .obj [("Real", .num r)]
  | .Char c => .obj [("Char", .str (String.mk [c]))]
  | .String s => .obj [("String", .str s)]
  | .Money m => .obj [("Money", .num m)]
  | .MoneyRange a b => .obj [("MoneyRange", .arr [.num a, .num b])]

def decodeDbValue : Json → Option DbValue
  | .obj [("Integer", .num q)] =>
      if q.den = 1 then some (.Integer q.num) else none
  | .obj [("Real", .num q)] => some (.Real q)
  | .obj [("Char", .str s)] =>
      match s.data with
      | [c] => some (.Char c)
      | _ => none
  | .obj [("String", .str s)] => some (.String s)
  | .obj [("Money", .num q)] => some (.Money q)
  | .obj [("MoneyRange", .arr [.num a, .num b])] => some (.MoneyRange a b)
  | _ => none

/-- Modelled from the spec: the `column_type` tags of the snapshot format
(spec section 6, matching the serde rename attributes in schema.rs). -/
def encodeColumnType : DbColumnType → Json
  | .Integer => .str "integer"
  | .Real => .str "real"
  | .Char => .str "char"
  | .String => .str "string"
  | .Money => .str "money"
  | .MoneyRange => .str "money_range"

def decodeColumnType : Json → Option DbColumnType
  | .str "integer" => some .Integer
  | .str "real" => some .Real
  | .str "char" => some .Char
  | .str "string" => some .String
  | .str "money" => some .Money
  | .str "money_range" => some .MoneyRange
  | _ => none

/-- Decoder for a JSON array's elements. -/
def decodeList {α : Type} (dec : Json → Option α) : List Json → Option (List α)
  | [] => some []
  | j :: js =>
      match dec j, decodeList dec js with
      | some a, some as_ => some (a :: as_)
      | _, _ => none

def encodeColumn (c : DbColumn) : Json :=
  .obj [("name", .str c.name), ("column_type", encodeColumnType c.column_type)]

def decodeColumn : Json → Option DbColumn
  | .obj [("name", .str nm), ("column_type", jt)] =>
      match decodeColumnType jt with
      | some t => some { name := nm, column_type := t }
      | none => none
  | _ => none

def encodeSchema (s : DbSchema) : Json :=
  .obj [("name", .str s.name), ("columns", .arr (s.columns.map encodeColumn))]

def decodeSchema : Json → Option DbSchema
  | .obj [("name", .str nm), ("columns", .arr js)] =>
      match decodeList decodeColumn js with
      | some cs => some { name := nm, columns := cs }
      | none => none
  | _ => none

def encodeRow (r : Row) : Json :=
  .obj [("id", encodeNat r.id), ("values", .arr (r.values.map encodeDbValue))]

def decodeRow : Json → Option Row
  | .obj [("id", jid), ("values", .arr js)] =>
      match decodeNat jid, decodeList decodeDbValue js with
      | some i, some vs => some { id := i, values := vs }
      | _, _ => none
  | _ => none

/-- Modelled from the spec: the id → Row map serializes as a JSON object
whose keys are the decimal ids (spec section 6, `"<id>": { ... }`). -/
def encodeRowsMap (m : List (Nat × Row)) : List (String × Json) :=
  m.map fun p => (natToKey p.1, encodeRow p.2)

def decodeRowsMap : List (String × Json) → Option (List (Nat × Row))
  | [] => some []
  | (k, j) :: rest =>
      match keyToNat k, decodeRow j, decodeRowsMap rest with
      | some n, some r, some m => some ((n, r) :: m)
      | _, _, _ => none

def encodeTable (t : Table) : Json :=
  .obj [("schema", encodeSchema t.schema), ("rows", .obj (encodeRowsMap t.rows)),
        ("index", encodeNat t.index), ("name", .str t.name)]

def decodeTable : Json → Option Table
  | .obj [("schema", js), ("rows", .obj jr), ("index", ji), ("name", .str nm)] =>
      match decodeSchema js, decodeRowsMap jr, decodeNat ji with
      | some sc, some rs, some ix =>
          some { schema := sc, rows := rs, index := ix, name := nm }
      | _, _, _ => none
  | _ => none

/-- Modelled from the spec: the snapshot document of a whole database
(spec section 6), produced by `save_to_file` in io.rs through serde. -/
def encodeDatabase (db : Database) : Json :=
  .obj [("name", .str db.name), ("tables", .arr (db.tables.map encodeTable))]

def decodeDatabase : Json → Option Database
  | .obj [("name", .str nm), ("tables", .arr js)] =>
      match decodeList decodeTable js with
      | some ts => some { name := nm, tables := ts }
      | none => none
  | _ => none

/-- Modelled from the spec: `save_to_file` in io.rs overwrites the file at
`path` with the snapshot document of `db`; the file system is modelled as
a map from paths to documents. -/
def save_to_file (fs : String → Option Json) (db : Database) (path : String) :
    String → Option Json :=
  fun p => if p = path then some (encodeDatabase db) else fs p

/-- Modelled from the spec: `load_from_file` in io.rs reads the document
at `path` and deserializes a database from it, failing on a missing or
malformed document. -/
def load_from_file (fs : String → Option Json) (path : String) : Option Database :=
  match fs path with
  | none => none
  | some j => decodeDatabase j

theorem decodeNat_encodeNat (n : Nat) : decodeNat (encodeNat n) = some n := by
  simp [decodeNat, encodeNat, Int.toNat_natCast]

theorem decodeDbValue_encodeDbValue (v : DbValue) :
    decodeDbValue (encodeDbValue v) = some v := by
  cases v with
  | Integer i => simp [encodeDbValue, decodeDbValue]
  | Real r => rfl
  | Char c => rfl
  | String s => rfl
  | Money m => rfl
  | MoneyRange a b => rfl

theorem decodeColumnType_encodeColumnType (t : DbColumnType) :
    decodeColumnType (encodeColumnType t) = some t := by
  cases t <;> rfl

theorem decodeList_roundtrip {α : Type} {enc : α → Json} {dec : Json → Option α}
    (h : ∀ a, dec (enc a) = some a) :
    ∀ l : List α, decodeList dec (l.map enc) = some l := by
  intro l
  induction l with
  | nil => rfl
  | cons a as_ ih => simp [decodeList, h a, ih]

theorem decodeColumn_encodeColumn (c : DbColumn) :
    decodeColumn (encodeColumn c) = some c := by
  cases c
  simp [encodeColumn, decodeColumn, decodeColumnType_encodeColumnType]

theorem decodeSchema_encodeSchema (s : DbSchema) :
    decodeSchema (encodeSchema s) = some s := by
  cases s
  simp [encodeSchema, decodeSchema, decodeList_roundtrip decodeColumn_encodeColumn]

theorem decodeRow_encodeRow (r : Row) : decodeRow (encodeRow r) = some r := by
  cases r
  simp [encodeRow, decodeRow, decodeNat_encodeNat,
    decodeList_roundtrip decodeDbValue_encodeDbValue]

theorem decodeRowsMap_encodeRowsMap (m : List (Nat × Row)) :
    decodeRowsMap (encodeRowsMap m) = some m := by
  induction m with
  | nil => rfl
  | cons p ps ih =>
      simp only [encodeRowsMap, List.map_cons, decodeRowsMap, keyToNat_natToKey,
        decodeRow_encodeRow]
      rw [show List.map (fun q => (natToKey q.1, encodeRow q.2)) ps
            = encodeRowsMap ps from rfl, ih]

theorem decodeTable_encodeTable (t : Table) :
    decodeTable (encodeTable t) = some t := by
  cases t
  simp [encodeTable, decodeTable, decodeSchema_encodeSchema,
    decodeRowsMap_encodeRowsMap, decodeNat_encodeNat]

theorem decodeDatabase_encodeDatabase (db : Database) :
    decodeDatabase (encodeDatabase db) = some db := by
  cases db
  simp [encodeDatabase, decodeDatabase, decodeList_roundtrip decodeTable_encodeTable]

/-- C6: loading right after saving reproduces the database exactly — the
same name, the same ordered table list, and for every table the same
name, schema, id-to-row mapping and next-id counter.  In this model the
snapshot write always succeeds (it is a total overwrite of the path's
document). -/
theorem load_after_save (fs : String → Option Json) (db : Database) (path : String) :
    load_from_file (save_to_file fs db path) path = some db := by
  simp [load_from_file, save_to_file, decodeDatabase_encodeDatabase]
